/-
  Verification of the PrivateImagesHosting metadata store, naming engine and
  expiry sweeper (Go sources: server/db, server/naming, server/cleanup).

  Shallow embedding conventions:
  * `time.Time` instants are modelled as `Int` nanoseconds since the epoch;
    `t.Before u` is `t < u`, `time.Hour` is 3600 * 10^9 ns.
  * Go `map` values are modelled as association lists; map assignment replaces
    an existing key or appends, lookup returns the first (unique) match.
  * `json.Marshal` / `json.Unmarshal` are modelled as an encoder to and a
    decoder from an explicit JSON AST (`Json` below); RFC3339 serialisation of
    timestamps is abstracted to the integer instant, which round-trips exactly
    in Go as well.
  * Functions returning Go `error` return an `Option String` (`none` = nil).
-/
import Mathlib

set_option maxHeartbeats 1000000
set_option linter.unusedVariables false

/-! ## Decimal digit codec (models strconv / JSON integer keys) -/

/-- The ASCII character for a decimal digit `d < 10`. -/
def digitToChar (d : Nat) : Char := Char.ofNat (48 + d)

/-- Inverse of `digitToChar`: `some d` when the character is a decimal digit. -/
def charToDigit? (c : Char) : Option Nat :=
  if 48 ≤ c.toNat ∧ c.toNat ≤ 57 then some (c.toNat - 48) else none

/-- Big-endian decimal representation of a natural number, as Go's
`strconv.FormatInt` produces for nonnegative input. -/
def natToChars (n : Nat) : List Char :=
  if h : n < 10 then [digitToChar n]
  else natToChars (n / 10) ++ [digitToChar (n % 10)]
  decreasing_by exact Nat.div_lt_self (by omega) (by omega)

/-- Parse a big-endian decimal digit string; `none` on any non-digit. -/
def charsToNat? (l : List Char) : Option Nat :=
  l.foldl (fun acc c =>
    match acc, charToDigit? c with
    | some a, some d => some (a * 10 + d)
    | _, _ => none) (some 0)

/-! ## JSON AST (model of encoding/json documents) -/

inductive Json where
  | null : Json
  | str : String → Json
  | num : Int → Json
  | obj : List (String × Json) → Json
  | arr : List Json → Json

/-- Go `strconv.FormatInt`-style key for an `int64` map key. -/
def intToKey (i : Int) : String :=
  if i < 0 then String.mk ('-' :: natToChars i.natAbs)
  else String.mk (natToChars i.toNat)

/-- Parse an `int64` JSON-object key (character-list form). -/
def keyToIntList : List Char → Option Int
  | '-' :: rest => (charsToNat? rest).map (fun n => -(n : Int))
  | l => (charsToNat? l).map (fun n => (n : Int))

/-- Parse an `int64` JSON-object key, as `json.Unmarshal` does for
`map[int64]` keys; `none` on malformed input. -/
def keyToInt (s : String) : Option Int := keyToIntList s.data

/-! ## Metadata store (Go package `db`, source file part_000) -/

namespace Db

/-- `FileMetadata` (part_000 lines 30-40). Timestamps are `Int` nanoseconds. -/
structure FileMetadata where
  ID : Int
  FileName : String
  OriginalName : String
  FilePath : String
  FileSize : Int
  UploadedAt : Int
  ExpiresAt : Int
  TTL : Int
  RemoteIP : String
deriving DecidableEq, Repr

/-- `DatabaseData` (part_000 lines 23-27). The Go maps `Files` and `Config`
are modelled as association lists with map-semantics operations below. -/
structure DatabaseData where
  Files : List (Int × FileMetadata)
  NextID : Int
  Config : List (String × String)
deriving DecidableEq, Repr

/-- First-match association lookup (Go map read). -/
def assocLookup {α β : Type} [DecidableEq α] : List (α × β) → α → Option β
  | [], _ => none
  | (k, v) :: rest, key => if k = key then some v else assocLookup rest key

/-- Go map assignment: replace the entry when the key is present, append
otherwise. -/
def mapSet {α β : Type} [DecidableEq α] (l : List (α × β)) (k : α) (v : β) :
    List (α × β) :=
  if (assocLookup l k).isSome then
    l.map (fun p => if p.1 = k then (k, v) else p)
  else l ++ [(k, v)]

/-- `initDefaultConfig` (part_000 lines 103-121), with the `strconv`
conversions of the constants at lines 45-60 evaluated. -/
def initDefaultConfigList : List (String × String) :=
  [("server.host", "0.0.0.0"),
   ("server.port", "8080"),
   ("storage.images_dir", "./Images"),
   ("storage.max_file_size", "104857600"),
   ("storage.cleanup_interval", "60"),
   ("storage.default_ttl", "1"),
   ("storage.max_ttl", "8760"),
   ("auth.api_key", "change-me-api-key"),
   ("auth.admin_username", "276793422"),
   ("auth.admin_password", "490003219"),
   ("auth.list_password", "490003219"),
   ("security.ip_whitelist", ""),
   ("security.rate_limit_per_minute", "60"),
   ("security.session_timeout", "300")]

/-- `GetConfig` (part_000 lines 177-185): value if present, `""` otherwise. -/
def GetConfig (d : DatabaseData) (key : String) : String :=
  match assocLookup d.Config key with
  | some val => val
  | none => ""

/-- `SaveFileMetadata` (part_000 lines 224-235): assigns `NextID` as the
record's id, increments `NextID`, stores the record under the assigned id.
The Go version communicates the id by mutating `meta.ID` and always returns a
nil error; the model returns the updated store and the assigned id. -/
def SaveFileMetadata (d : DatabaseData) (meta : FileMetadata) :
    DatabaseData × Int :=
  let id := d.NextID
  let stored := { meta with ID := id }
  ({ d with Files := mapSet d.Files id stored, NextID := d.NextID + 1 }, id)

/-- First record whose `FilePath` matches, in iteration order
(`GetFileMetadata`, part_000 lines 238-248). -/
def findByPath : List (Int × FileMetadata) → String → Option FileMetadata
  | [], _ => none
  | (_, meta) :: rest, p =>
      if meta.FilePath = p then some meta else findByPath rest p

/-- `GetFileMetadata` (part_000 lines 238-248). -/
def GetFileMetadata (d : DatabaseData) (filePath : String) :
    Option FileMetadata :=
  findByPath d.Files filePath

/-- `GetFileMetadataByID` (part_000 lines 251-260). -/
def GetFileMetadataByID (d : DatabaseData) (id : Int) : Option FileMetadata :=
  assocLookup d.Files id

/-- Remove the first record whose `FilePath` matches (the loop body of
`DeleteFileMetadata`, which returns after the first deletion). -/
def removeFirstByPath : List (Int × FileMetadata) → String → List (Int × FileMetadata)
  | [], _ => []
  | (k, meta) :: rest, p =>
      if meta.FilePath = p then rest
      else (k, meta) :: removeFirstByPath rest p

/-- `DeleteFileMetadata` (part_000 lines 263-275): deletes the first matching
record and returns; returns a nil error (`none`) whether or not a record
matched. -/
def DeleteFileMetadata (d : DatabaseData) (filePath : String) :
    DatabaseData × Option String :=
  ({ d with Files := removeFirstByPath d.Files filePath }, none)

/-- `GetExpiredFiles` (part_000 lines 278-292): every record whose
`ExpiresAt` is strictly before `now` (`meta.ExpiresAt.Before(now)`). -/
def GetExpiredFiles (d : DatabaseData) (now : Int) : List FileMetadata :=
  (d.Files.filter (fun p => decide (p.2.ExpiresAt < now))).map (fun p => p.2)

/-! ### Persistence: `json.Marshal` / `json.Unmarshal` of `DatabaseData` -/

/-- Encoding of one record, following the struct's json tags. -/
def encodeMeta (m : FileMetadata) : Json :=
  .obj [("id", .num m.ID),
        ("file_name", .str m.FileName),
        ("original_name", .str m.OriginalName),
        ("file_path", .str m.FilePath),
        ("file_size", .num m.FileSize),
        ("uploaded_at", .num m.UploadedAt),
        ("expires_at", .num m.ExpiresAt),
        ("ttl", .num m.TTL),
        ("remote_ip", .str m.RemoteIP)]

/-- JSON-object field lookup. -/
def jLookup : List (String × Json) → String → Option Json
  | [], _ => none
  | (k, v) :: rest, key => if k = key then some v else jLookup rest key

def asNum : Json → Option Int
  | .num n => some n
  | _ => none

def asStr : Json → Option String
  | .str s => some s
  | _ => none

/-- Decoding of one record; `none` when a field is missing or ill-typed. -/
def decodeMeta : Json → Option FileMetadata
  | .obj fields => do
      let id ← (jLookup fields "id").bind asNum
      let fn ← (jLookup fields "file_name").bind asStr
      let origName ← (jLookup fields "original_name").bind asStr
      let fp ← (jLookup fields "file_path").bind asStr
      let fs ← (jLookup fields "file_size").bind asNum
      let ua ← (jLookup fields "uploaded_at").bind asNum
      let ea ← (jLookup fields "expires_at").bind asNum
      let ttl ← (jLookup fields "ttl").bind asNum
      let ip ← (jLookup fields "remote_ip").bind asStr
      some ⟨id, fn, origName, fp, fs, ua, ea, ttl, ip⟩
  | _ => none

/-- The files map marshals as an object keyed by the decimal id. -/
def encodeFiles (files : List (Int × FileMetadata)) : Json :=
  .obj (files.map (fun p => (intToKey p.1, encodeMeta p.2)))

def decodeFilesEntries : List (String × Json) → Option (List (Int × FileMetadata))
  | [] => some []
  | (k, j) :: rest => do
      let id ← keyToInt k
      let m ← decodeMeta j
      let l ← decodeFilesEntries rest
      some ((id, m) :: l)

def decodeFiles : Json → Option (List (Int × FileMetadata))
  | .obj fields => decodeFilesEntries fields
  | _ => none

def encodeConfig (cfg : List (String × String)) : Json :=
  .obj (cfg.map (fun p => (p.1, .str p.2)))

def decodeConfigEntries : List (String × Json) → Option (List (String × String))
  | [] => some []
  | (k, j) :: rest => do
      let v ← asStr j
      let l ← decodeConfigEntries rest
      some ((k, v) :: l)

def decodeConfig : Json → Option (List (String × String))
  | .obj fields => decodeConfigEntries fields
  | _ => none

/-- Marshalling of the whole database document (struct json tags `files`,
`next_id`, `config`). -/
def encodeData (d : DatabaseData) : Json :=
  .obj [("files", encodeFiles d.Files),
        ("next_id", .num d.NextID),
        ("config", encodeConfig d.Config)]

/-- Unmarshalling of a whole-state snapshot document; `none` on a document
that is not a complete marshalled `DatabaseData` (corrupt/unparseable). -/
def decodeData (j : Json) : Option DatabaseData :=
  match j with
  | .obj fields => do
      let files ← (jLookup fields "files").bind decodeFiles
      let nid ← (jLookup fields "next_id").bind asNum
      let cfg ← (jLookup fields "config").bind decodeConfig
      some ⟨files, nid, cfg⟩
  | _ => none

/-- `save` (part_000 lines 131-145): marshals the full state, writes it to a
temp file and atomically renames it over `filePath`. The model returns the
snapshot value that ends up at `filePath`. -/
def save (d : DatabaseData) : Json := encodeData d

/-- `Close` (part_000 lines 124-128): takes the lock and flushes; the value
returned is the final on-disk snapshot. -/
def Close (d : DatabaseData) : Json := save d

/-- `Open` (part_000 lines 62-100). `mkdirOk` is the outcome of
`os.MkdirAll`; `snapshot` is the content of the file at `dbPath` (`none` =
file missing or unreadable). A nil-error return is `some store`. Read and
unmarshal failures are silently ignored (the `err == nil` ladder at lines
81-88) and leave the freshly initialized empty state in place; a loaded state
with an empty config map is re-seeded with the defaults (lines 91-93). -/
def Open (mkdirOk : Bool) (snapshot : Option Json) : Option DatabaseData :=
  if mkdirOk = false then none
  else
    let initData : DatabaseData := ⟨[], 1, []⟩
    let loaded : DatabaseData :=
      match snapshot with
      | some j =>
          match decodeData j with
          | some d => d
          | none => initData
      | none => initData
    some (if loaded.Config.isEmpty then
            { loaded with Config := initDefaultConfigList }
          else loaded)

end Db
/-! ## Naming engine (server/naming/naming.go) -/

namespace Naming

/-- The components of a Go `time.Time` consumed by
`Format("20060102-150405")` and `Nanosecond()`. -/
structure GoTime where
  Year : Nat
  Month : Nat
  Day : Nat
  Hour : Nat
  Minute : Nat
  Second : Nat
  Nanosecond : Nat
deriving DecidableEq, Repr

/-- Two-digit zero-padded component (Go layout fields `01`, `02`, `15`,
`04`, `05`); faithful for the in-range values a real `time.Time` yields. -/
def pad2 (n : Nat) : List Char := [digitToChar (n / 10), digitToChar (n % 10)]

/-- Three-digit zero-padded component (`fmt.Sprintf("%03d", ...)`). -/
def pad3 (n : Nat) : List Char :=
  [digitToChar (n / 100), digitToChar (n / 10 % 10), digitToChar (n % 10)]

/-- Four-digit zero-padded year (Go layout field `2006`). -/
def pad4 (n : Nat) : List Char :=
  [digitToChar (n / 1000), digitToChar (n / 100 % 10),
   digitToChar (n / 10 % 10), digitToChar (n % 10)]

/-- The `YYYYMMDD` date component of `Format("20060102-150405")`. -/
def dateChars (t : GoTime) : List Char := pad4 t.Year ++ pad2 t.Month ++ pad2 t.Day

/-- The `HHMMSS` time component of `Format("20060102-150405")`. -/
def hmsChars (t : GoTime) : List Char := pad2 t.Hour ++ pad2 t.Minute ++ pad2 t.Second

/-- `now.Nanosecond() / 1000000` printed with `%03d` (naming.go lines 19-20). -/
def msChars (t : GoTime) : List Char := pad3 (t.Nanosecond / 1000000)

/-- Lowercase hexadecimal digit character (`%x` formatting). -/
def hexDigitChar (d : Nat) : Char :=
  if d < 10 then digitToChar d else Char.ofNat (87 + d)

/-- `fmt.Sprintf("%032x", randomBytes)` for a 16-byte slice: two lowercase
hex digits per byte. -/
def hexEncode : List Nat → List Char
  | [] => []
  | b :: rest => hexDigitChar (b / 16) :: hexDigitChar (b % 16) :: hexEncode rest

/-- `filepath.Ext` (Go): walk backwards from the end of the final
slash-separated element; return the suffix from the last dot, or `""`.
The first argument is the path's characters reversed, the second the suffix
scanned so far. -/
def extFromRev : List Char → List Char → List Char
  | [], _ => []
  | c :: rest, acc =>
      if c = '/' then []
      else if c = '.' then c :: acc
      else extFromRev rest (c :: acc)

/-- `filepath.Ext originalName`. -/
def filepathExt (s : String) : String := String.mk (extFromRev s.data.reverse [])

/-- `strings.ToLower`, modelled on ASCII letters (`Char.toLower`). -/
def toLowerStr (s : String) : String := String.mk (s.data.map Char.toLower)

/-- `GenerateFileName` (naming.go lines 13-37). The wall-clock reading
`now` and the 16 random bytes drawn from `crypto/rand` are explicit
parameters (on `rand.Read` failure the Go code falls back to the bytes of
`fmt.Sprintf("%016x", now.UnixNano())`, also 16 bytes below 256, so both
sources are instances of `randomBytes`). -/
def GenerateFileName (t : GoTime) (randomBytes : List Nat)
    (originalName : String) : String :=
  let timestampWithMs := dateChars t ++ '-' :: (hmsChars t ++ msChars t)
  let randomStr := hexEncode randomBytes
  let ext0 := toLowerStr (filepathExt originalName)
  let ext := if ext0 = "" then ".bin" else ext0
  String.mk (timestampWithMs ++ '-' :: (randomStr ++ ext.data))

/-- `GenerateDateDir` (naming.go lines 40-42). -/
def GenerateDateDir (t : GoTime) : String := String.mk (dateChars t)

/-- `GenerateFilePath` (naming.go lines 46-50): `filepath.Join(date,
fileName)`, which for these slash-free components is `date ++ "/" ++
fileName`. Both `time.Now()` readings of the Go code are modelled by the
same instant `t`. The Go function returns a nil error alongside. -/
def GenerateFilePath (t : GoTime) (randomBytes : List Nat)
    (originalName : String) : String :=
  String.mk (dateChars t ++ '/' :: (GenerateFileName t randomBytes originalName).data)

end Naming
/-! ## Expiry sweeper (server/cleanup/cleanup.go) -/

namespace Cleanup

/-- Outcome of `os.Remove` on one path; `notExist` is the
`os.IsNotExist(err)` case. -/
inductive RemoveResult where
  | ok : RemoveResult
  | notExist : RemoveResult
  | otherErr : RemoveResult
deriving DecidableEq, Repr

/-- The per-record loop of `runCleanup` (cleanup.go lines 83-112), iterated
over the expired list; `fs` gives the `os.Remove` outcome for each path.
Whatever that outcome, the iteration calls `DeleteFileMetadata` and proceeds
to the next record; `deletedCount`/`freedSpace` advance only on a successful
physical delete. The best-effort empty-directory removal (lines 104-111)
touches only the filesystem, never the store, and is omitted. -/
def processExpired (fs : String → RemoveResult) :
    List Db.FileMetadata → Db.DatabaseData → Nat → Int →
      Db.DatabaseData × Nat × Int
  | [], d, deletedCount, freedSpace => (d, deletedCount, freedSpace)
  | file :: rest, d, deletedCount, freedSpace =>
      let counts :=
        match fs file.FilePath with
        | .ok => (deletedCount + 1, freedSpace + file.FileSize)
        | _ => (deletedCount, freedSpace)
      let d' := (Db.DeleteFileMetadata d file.FilePath).1
      processExpired fs rest d' counts.1 counts.2

/-- `runCleanup` (cleanup.go lines 65-115): fetch the expired records,
return early when there are none, otherwise process each in turn. `now` is
the `time.Now()` read inside `GetExpiredFiles`. `runCleanup` returns
nothing in Go and has no error path; the model exposes the resulting store,
`deletedCount` and `freedSpace`. -/
def runCleanup (d : Db.DatabaseData) (fs : String → RemoveResult) (now : Int) :
    Db.DatabaseData × Nat × Int :=
  let expiredFiles := Db.GetExpiredFiles d now
  if expiredFiles.isEmpty then (d, 0, 0)
  else processExpired fs expiredFiles d 0 0

/-- Concurrency model of the sweep entry points. `CleanupManager`
(cleanup.go lines 15-19) holds only `cfg`, `db` and `stopChan` — no mutex
and no in-flight flag. `tickSweeping` models the ticker goroutine of
`Start` (lines 46-56), which runs tick-sweeps sequentially; `initialSweeping`
the one-off `go cm.runCleanup()` (line 43); `manualSweeps` the number of
concurrent `RunOnce` calls (lines 146-149), each of which invokes
`runCleanup` directly on its caller's goroutine with no guard. -/
structure SweeperState where
  tickSweeping : Bool
  initialStarted : Bool
  initialSweeping : Bool
  manualSweeps : Nat
deriving DecidableEq, Repr

/-- Number of `runCleanup` invocations currently executing. -/
def inFlight (s : SweeperState) : Nat :=
  (if s.tickSweeping then 1 else 0) + (if s.initialSweeping then 1 else 0) +
    s.manualSweeps

/-- Interleaving steps of the sweep entry points, as permitted by the code. -/
inductive SweepStep : SweeperState → SweeperState → Prop where
  | tickBegin (s : SweeperState) (h : s.tickSweeping = false) :
      SweepStep s { s with tickSweeping := true }
  | tickEnd (s : SweeperState) (h : s.tickSweeping = true) :
      SweepStep s { s with tickSweeping := false }
  | initialBegin (s : SweeperState) (h : s.initialStarted = false) :
      SweepStep s { s with initialStarted := true, initialSweeping := true }
  | initialEnd (s : SweeperState) (h : s.initialSweeping = true) :
      SweepStep s { s with initialSweeping := false }
  | manualBegin (s : SweeperState) :
      SweepStep s { s with manualSweeps := s.manualSweeps + 1 }
  | manualEnd (s : SweeperState) (h : 0 < s.manualSweeps) :
      SweepStep s { s with manualSweeps := s.manualSweeps - 1 }

/-- States reachable from the freshly constructed manager. -/
inductive SweepReachable : SweeperState → Prop where
  | init : SweepReachable ⟨false, false, false, 0⟩
  | step {s s' : SweeperState} :
      SweepReachable s → SweepStep s s' → SweepReachable s'

end Cleanup

/-! ## Upload-side expiry computation (httpd upload handler, part_001) -/

/-- `time.Hour` in nanoseconds. -/
def nsPerHour : Int := 3600 * 1000000000

/-- A minute in nanoseconds. -/
def nsPerMinute : Int := 60 * 1000000000

/-- `expiresAt := uploadedAt.Add(time.Duration(ttl) * time.Hour)`
(part_001 line 151). -/
def mkExpiresAt (uploadedAt : Int) (ttl : Int) : Int :=
  uploadedAt + ttl * nsPerHour

/-! ## Invariants and verification drivers -/

namespace Db

/-- The documented store invariant: `relativePath` is unique across live
records. -/
def PathsUnique (d : DatabaseData) : Prop :=
  (d.Files.map (fun q => q.2.FilePath)).Nodup

instance (d : DatabaseData) : Decidable (PathsUnique d) := by
  unfold PathsUnique
  infer_instance

/-- The store's id invariant: every stored key is below the next id to be
assigned. It holds for a fresh store (`NextID = 1`, no files) and, by
`insertAll_keysBelow` below, is preserved by every insert. -/
def KeysBelowNextID (d : DatabaseData) : Prop :=
  ∀ p ∈ d.Files, p.1 < d.NextID

instance (d : DatabaseData) : Decidable (KeysBelowNextID d) := by
  unfold KeysBelowNextID
  infer_instance

/-- A sequence of `SaveFileMetadata` calls against one store instance,
collecting the assigned ids in call order. -/
def insertAll : DatabaseData → List FileMetadata → DatabaseData × List Int
  | d, [] => (d, [])
  | d, m :: rest =>
      let r := SaveFileMetadata d m
      let r' := insertAll r.1 rest
      (r'.1, r.2 :: r'.2)

/-- The consecutive run of `n` ids starting at `start`. -/
def idsFrom (start : Int) : Nat → List Int
  | 0 => []
  | n + 1 => start :: idsFrom (start + 1) n

end Db

namespace Naming

/-- A lowercase hexadecimal digit character. -/
def LowerHexChar (c : Char) : Prop := c.isDigit = true ∨ ('a' ≤ c ∧ c ≤ 'f')

instance : DecidablePred LowerHexChar := fun c => by
  unfold LowerHexChar
  infer_instance

end Naming

/-! ## Concrete sample data used to instantiate the theorems -/

/-- A record that is expired at instant 1000. -/
def wExpired : Db.FileMetadata :=
  { ID := 1, FileName := "20250101-000000000-aa.jpg",
    OriginalName := "a.jpg", FilePath := "20250101/a.jpg", FileSize := 10,
    UploadedAt := 0, ExpiresAt := 100, TTL := 1, RemoteIP := "127.0.0.1" }

/-- A record that is still live at instant 1000. -/
def wLive : Db.FileMetadata :=
  { ID := 2, FileName := "20250102-000000000-bb.png",
    OriginalName := "b.png", FilePath := "20250102/b.png", FileSize := 20,
    UploadedAt := 500, ExpiresAt := 5000, TTL := 1, RemoteIP := "127.0.0.1" }

/-- A store holding one expired and one live record. -/
def wStore : Db.DatabaseData :=
  { Files := [(1, wExpired), (2, wLive)], NextID := 3,
    Config := [("storage.max_ttl", "8760")] }

/-- A filesystem on which every physical delete fails. -/
def wFsFail : String → Cleanup.RemoveResult := fun _ => Cleanup.RemoveResult.otherErr

/-- A record whose expiry is one hour after its upload instant. -/
def wTtlOne : Db.FileMetadata :=
  { ID := 1, FileName := "c", OriginalName := "c.gif",
    FilePath := "20250103/c.gif", FileSize := 5, UploadedAt := 0,
    ExpiresAt := 3600000000000, TTL := 1, RemoteIP := "10.0.0.1" }

/-- A store holding only `wTtlOne`. -/
def wStoreTtl : Db.DatabaseData :=
  { Files := [(1, wTtlOne)], NextID := 2, Config := [] }

/-- An empty, freshly initialized store. -/
def wEmptyStore : Db.DatabaseData := { Files := [], NextID := 1, Config := [] }

/-- A wall-clock instant for the naming engine. -/
def wTime : Naming.GoTime :=
  { Year := 2025, Month := 10, Day := 11, Hour := 12, Minute := 34,
    Second := 56, Nanosecond := 789123456 }

/-- Sixteen random bytes. -/
def wBytes : List Nat := List.replicate 16 171

/-! ## Lemmas -/

theorem charToDigit?_digitToChar {d : Nat} (h : d < 10) :
    charToDigit? (digitToChar d) = some d := by
  interval_cases d <;> decide

theorem digitToChar_isDigit {d : Nat} (h : d < 10) :
    (digitToChar d).isDigit = true := by
  interval_cases d <;> decide

theorem charsToNat?_go (l : List Char) (a : Nat)
    (hl : ∀ c ∈ l, ∃ d, d < 10 ∧ c = digitToChar d) :
    l.foldl (fun acc c =>
      match acc, charToDigit? c with
      | some a, some d => some (a * 10 + d)
      | _, _ => none) (some a) =
    some (l.foldl (fun a c => a * 10 + ((charToDigit? c).getD 0)) a) := by
  induction l generalizing a with
  | nil => rfl
  | cons c rest ih =>
      obtain ⟨d, hd, rfl⟩ := hl c (by simp)
      rw [List.foldl_cons, List.foldl_cons, charToDigit?_digitToChar hd]
      exact ih _ (fun c hc => hl c (by simp [hc]))

theorem natToChars_digits (n : Nat) :
    ∀ c ∈ natToChars n, ∃ d, d < 10 ∧ c = digitToChar d := by
  induction n using Nat.strong_induction_on with
  | _ n ih =>
      intro c hc
      rw [natToChars] at hc
      by_cases h : n < 10
      · simp [h] at hc
        exact ⟨n, h, hc⟩
      · simp [h] at hc
        rcases hc with hc | hc
        · exact ih (n / 10) (Nat.div_lt_self (by omega) (by omega)) c hc
        · exact ⟨n % 10, Nat.mod_lt _ (by omega), hc⟩

theorem charsToNat?_natToChars (n : Nat) : charsToNat? (natToChars n) = some n := by
  suffices h : ∀ a : Nat, (natToChars n).foldl
      (fun a c => a * 10 + ((charToDigit? c).getD 0)) a = a * 10 ^ (natToChars n).length + n by
    unfold charsToNat?
    rw [charsToNat?_go _ 0 (natToChars_digits n), h 0]
    simp
  induction n using Nat.strong_induction_on with
  | _ n ih =>
      intro a
      rw [natToChars]
      by_cases h : n < 10
      · simp [h, charToDigit?_digitToChar h]
      · simp only [h, dite_false, List.foldl_append, List.foldl_cons, List.foldl_nil,
          List.length_append, List.length_cons, List.length_nil]
        rw [ih (n / 10) (Nat.div_lt_self (by omega) (by omega)) a]
        rw [charToDigit?_digitToChar (Nat.mod_lt _ (by omega))]
        simp only [Option.getD_some]
        rw [pow_succ]
        have : 10 * (n / 10) + n % 10 = n := Nat.div_add_mod n 10
        ring_nf
        omega

theorem natToChars_ne_nil (n : Nat) : natToChars n ≠ [] := by
  rw [natToChars]
  by_cases h : n < 10 <;> simp [h]

theorem natToChars_head_not_minus (n : Nat) (c : Char) (rest : List Char)
    (h : natToChars n = c :: rest) : c ≠ '-' := by
  have := natToChars_digits n c (by rw [h]; simp)
  obtain ⟨d, hd, rfl⟩ := this
  interval_cases d <;> decide
theorem keyToIntList_cons_ne (c : Char) (rest : List Char) (hc : c ≠ '-') :
    keyToIntList (c :: rest) = (charsToNat? (c :: rest)).map (fun n => (n : Int)) := by
  unfold keyToIntList
  split
  · rename_i heq
    injection heq with h1 _
    exact absurd h1 hc
  · rfl

theorem keyToInt_intToKey (i : Int) (h : 0 ≤ i) : keyToInt (intToKey i) = some i := by
  unfold intToKey keyToInt
  rw [if_neg (by omega)]
  rcases hn : natToChars i.toNat with _ | ⟨c, rest⟩
  · exact absurd hn (natToChars_ne_nil _)
  · have hc := natToChars_head_not_minus _ _ _ hn
    show keyToIntList (c :: rest) = some i
    rw [keyToIntList_cons_ne c rest hc, ← hn, charsToNat?_natToChars]
    simp [Int.toNat_of_nonneg h]
namespace Db

theorem decodeMeta_encodeMeta (m : FileMetadata) :
    decodeMeta (encodeMeta m) = some m := rfl

theorem decodeFilesEntries_encodeFiles (files : List (Int × FileMetadata))
    (h : ∀ p ∈ files, 0 ≤ p.1) :
    decodeFilesEntries (files.map (fun p => (intToKey p.1, encodeMeta p.2))) =
      some files := by
  induction files with
  | nil => rfl
  | cons p rest ih =>
      simp only [List.map_cons, decodeFilesEntries,
        keyToInt_intToKey p.1 (h p (by simp)), decodeMeta_encodeMeta,
        ih (fun q hq => h q (by simp [hq])), Option.bind_some]
      rfl

theorem decodeConfigEntries_encodeConfig (cfg : List (String × String)) :
    decodeConfigEntries (cfg.map (fun p => (p.1, Json.str p.2))) = some cfg := by
  induction cfg with
  | nil => rfl
  | cons p rest ih =>
      simp only [List.map_cons, decodeConfigEntries, asStr, ih, Option.bind_some]
      rfl

theorem decodeData_encodeData (d : DatabaseData)
    (h : ∀ p ∈ d.Files, 0 ≤ p.1) :
    decodeData (encodeData d) = some d := by
  simp [decodeData, encodeData, jLookup, decodeFiles, decodeConfig, asNum,
    encodeFiles, encodeConfig, decodeFilesEntries_encodeFiles d.Files h,
    decodeConfigEntries_encodeConfig d.Config]

end Db

namespace Db

theorem assocLookup_eq_none {α β : Type} [DecidableEq α]
    (l : List (α × β)) (k : α) (h : ∀ p ∈ l, p.1 ≠ k) :
    assocLookup l k = none := by
  induction l with
  | nil => rfl
  | cons p rest ih =>
      obtain ⟨k', v⟩ := p
      have hne : k' ≠ k := h (k', v) (by simp)
      simp only [assocLookup, if_neg hne]
      exact ih (fun q hq => h q (by simp [hq]))

theorem assocLookup_append {α β : Type} [DecidableEq α]
    (l1 l2 : List (α × β)) (k : α) :
    assocLookup (l1 ++ l2) k =
      match assocLookup l1 k with
      | some v => some v
      | none => assocLookup l2 k := by
  induction l1 with
  | nil => rfl
  | cons p rest ih =>
      obtain ⟨k', v⟩ := p
      by_cases hk : k' = k
      · simp [assocLookup, hk]
      · simp only [List.cons_append, assocLookup, if_neg hk]
        exact ih

theorem removeFirstByPath_eq_self (files : List (Int × FileMetadata))
    (p : String) (h : ∀ q ∈ files, q.2.FilePath ≠ p) :
    removeFirstByPath files p = files := by
  induction files with
  | nil => rfl
  | cons q rest ih =>
      obtain ⟨k, m⟩ := q
      have hne : m.FilePath ≠ p := h (k, m) (by simp)
      simp only [removeFirstByPath, if_neg hne]
      rw [ih (fun q hq => h q (by simp [hq]))]

theorem removeFirstByPath_nodup (files : List (Int × FileMetadata))
    (p : String) (h : (files.map (fun q => q.2.FilePath)).Nodup) :
    removeFirstByPath files p =
      files.filter (fun q => decide (q.2.FilePath ≠ p)) := by
  induction files with
  | nil => rfl
  | cons q rest ih =>
      obtain ⟨k, m⟩ := q
      simp only [List.map_cons, List.nodup_cons] at h
      by_cases hm : m.FilePath = p
      · subst hm
        simp only [removeFirstByPath, if_pos rfl]
        rw [List.filter_cons_of_neg (by simp)]
        exact (List.filter_eq_self.mpr (fun q hq => by
          simp only [decide_eq_true_eq]
          intro hqp
          exact h.1 (by
            rw [← hqp]
            exact List.mem_map_of_mem (fun q => q.2.FilePath) hq))).symm
      · simp only [removeFirstByPath, if_neg hm]
        rw [List.filter_cons_of_pos (by simp [hm])]
        rw [ih h.2]

theorem pathsUnique_filter (files : List (Int × FileMetadata))
    (f : Int × FileMetadata → Bool)
    (h : (files.map (fun q => q.2.FilePath)).Nodup) :
    ((files.filter f).map (fun q => q.2.FilePath)).Nodup :=
  List.Nodup.sublist (List.Sublist.map _ (List.filter_sublist files)) h

theorem mem_getExpiredFiles (d : DatabaseData) (now : Int) (m : FileMetadata) :
    m ∈ GetExpiredFiles d now ↔
      (∃ k, (k, m) ∈ d.Files) ∧ m.ExpiresAt < now := by
  simp only [GetExpiredFiles, List.mem_map, List.mem_filter,
    decide_eq_true_eq]
  constructor
  · rintro ⟨⟨k, m'⟩, ⟨hmem, hexp⟩, rfl⟩
    exact ⟨⟨k, hmem⟩, hexp⟩
  · rintro ⟨⟨k, hk⟩, hexp⟩
    exact ⟨(k, m), ⟨hk, hexp⟩, rfl⟩

theorem path_mem_expired_iff (d : DatabaseData) (now : Int)
    (h : PathsUnique d) (q : Int × FileMetadata) (hq : q ∈ d.Files) :
    q.2.FilePath ∈ (GetExpiredFiles d now).map (fun m => m.FilePath) ↔
      q.2.ExpiresAt < now := by
  constructor
  · rintro hmem
    rw [List.mem_map] at hmem
    obtain ⟨m, hm, hpath⟩ := hmem
    rw [mem_getExpiredFiles] at hm
    obtain ⟨⟨k, hk⟩, hexp⟩ := hm
    have := List.inj_on_of_nodup_map h hk hq hpath
    rw [← congrArg (fun p => (Prod.snd p).ExpiresAt) this]
    exact hexp
  · intro hexp
    exact List.mem_map_of_mem (fun m => m.FilePath)
      ((mem_getExpiredFiles d now q.2).mpr ⟨⟨q.1, hq⟩, hexp⟩)


end Db

namespace Cleanup

theorem processExpired_files (fs : String → RemoveResult)
    (L : List Db.FileMetadata) : ∀ (d : Db.DatabaseData) (c : Nat) (b : Int),
    (d.Files.map (fun q => q.2.FilePath)).Nodup →
    (processExpired fs L d c b).1.Files =
      d.Files.filter
        (fun q => decide (q.2.FilePath ∉ L.map (fun m => m.FilePath))) := by
  induction L with
  | nil =>
      intro d c b h
      simp [processExpired]
  | cons m rest ih =>
      intro d c b h
      have hdel : (Db.DeleteFileMetadata d m.FilePath).1.Files =
          d.Files.filter (fun q => decide (q.2.FilePath ≠ m.FilePath)) :=
        Db.removeFirstByPath_nodup d.Files m.FilePath h
      have hnd : (((Db.DeleteFileMetadata d m.FilePath).1.Files).map
          (fun q => q.2.FilePath)).Nodup := by
        rw [hdel]
        exact Db.pathsUnique_filter d.Files _ h
      simp only [processExpired]
      rw [ih _ _ _ hnd, hdel, List.filter_filter]
      apply List.filter_congr
      intro q hq
      by_cases h1 : q.2.FilePath = m.FilePath <;>
        by_cases h2 : q.2.FilePath ∈ rest.map (fun m => m.FilePath) <;>
          simp [h1, h2]

theorem runCleanup_files (d : Db.DatabaseData) (fs : String → RemoveResult)
    (now : Int) (h : Db.PathsUnique d) :
    (runCleanup d fs now).1.Files =
      d.Files.filter (fun q => decide (¬ q.2.ExpiresAt < now)) := by
  unfold runCleanup
  by_cases he : (Db.GetExpiredFiles d now).isEmpty
  · rw [if_pos he]
    refine (List.filter_eq_self.mpr (fun q hq => ?_)).symm
    simp only [decide_eq_true_eq]
    intro hexp
    have : q.2 ∈ Db.GetExpiredFiles d now :=
      (Db.mem_getExpiredFiles d now q.2).mpr ⟨⟨q.1, hq⟩, hexp⟩
    rw [List.isEmpty_iff] at he
    simp [he] at this
  · rw [if_neg he]
    rw [processExpired_files fs _ d 0 0 h]
    apply List.filter_congr
    intro q hq
    simp only [decide_eq_decide]
    rw [Db.path_mem_expired_iff d now h q hq]

theorem getExpiredFiles_after (d : Db.DatabaseData)
    (fs : String → RemoveResult) (now : Int) (h : Db.PathsUnique d) :
    Db.GetExpiredFiles (runCleanup d fs now).1 now = [] := by
  unfold Db.GetExpiredFiles
  rw [runCleanup_files d fs now h, List.filter_filter]
  rw [List.filter_eq_nil_iff.mpr (fun q hq => by simp)]
  rfl

end Cleanup

namespace Db

theorem saveFileMetadata_files (d : DatabaseData) (m : FileMetadata)
    (h : KeysBelowNextID d) :
    (SaveFileMetadata d m).1.Files =
      d.Files ++ [(d.NextID, { m with ID := d.NextID })] := by
  simp only [SaveFileMetadata, mapSet]
  rw [assocLookup_eq_none d.Files d.NextID
    (fun p hp => ne_of_lt (h p hp))]
  simp

theorem saveFileMetadata_nextID (d : DatabaseData) (m : FileMetadata) :
    (SaveFileMetadata d m).1.NextID = d.NextID + 1 := rfl

theorem saveFileMetadata_keysBelow (d : DatabaseData) (m : FileMetadata)
    (h : KeysBelowNextID d) : KeysBelowNextID (SaveFileMetadata d m).1 := by
  intro p hp
  rw [saveFileMetadata_files d m h] at hp
  rw [saveFileMetadata_nextID]
  rcases List.mem_append.mp hp with hp | hp
  · have := h p hp
    omega
  · rw [List.mem_singleton] at hp
    subst hp
    show d.NextID < d.NextID + 1
    omega

theorem getByID_insert_self (d : DatabaseData) (m : FileMetadata)
    (h : KeysBelowNextID d) :
    GetFileMetadataByID (SaveFileMetadata d m).1 d.NextID =
      some { m with ID := d.NextID } := by
  unfold GetFileMetadataByID
  rw [saveFileMetadata_files d m h, assocLookup_append]
  rw [assocLookup_eq_none d.Files d.NextID (fun p hp => ne_of_lt (h p hp))]
  simp [assocLookup]

theorem getByID_insert_other (d : DatabaseData) (m : FileMetadata) (k : Int)
    (h : KeysBelowNextID d) (hk : k ≠ d.NextID) :
    GetFileMetadataByID (SaveFileMetadata d m).1 k =
      GetFileMetadataByID d k := by
  unfold GetFileMetadataByID
  rw [saveFileMetadata_files d m h, assocLookup_append]
  rcases hl : assocLookup d.Files k with _ | v
  · simp [assocLookup, Ne.symm hk]
  · rfl

theorem insertAll_nextID (ms : List FileMetadata) :
    ∀ d : DatabaseData, (insertAll d ms).1.NextID = d.NextID + ms.length := by
  induction ms with
  | nil => intro d; simp [insertAll]
  | cons m rest ih =>
      intro d
      show (insertAll (SaveFileMetadata d m).1 rest).1.NextID = _
      rw [ih, saveFileMetadata_nextID]
      simp
      omega

theorem insertAll_keysBelow (ms : List FileMetadata) :
    ∀ d : DatabaseData, KeysBelowNextID d →
      KeysBelowNextID (insertAll d ms).1 := by
  induction ms with
  | nil => intro d h; exact h
  | cons m rest ih =>
      intro d h
      exact ih _ (saveFileMetadata_keysBelow d m h)

theorem insertAll_preserves (ms : List FileMetadata) :
    ∀ (d : DatabaseData) (k : Int), KeysBelowNextID d → k < d.NextID →
      GetFileMetadataByID (insertAll d ms).1 k = GetFileMetadataByID d k := by
  induction ms with
  | nil => intro d k h hk; rfl
  | cons m rest ih =>
      intro d k h hk
      show GetFileMetadataByID (insertAll (SaveFileMetadata d m).1 rest).1 k = _
      rw [ih _ k (saveFileMetadata_keysBelow d m h)
        (by rw [saveFileMetadata_nextID]; omega)]
      exact getByID_insert_other d m k h (by omega)

theorem idsFrom_length (n : Nat) : ∀ start : Int, (idsFrom start n).length = n := by
  induction n with
  | zero => intro start; rfl
  | succ n ih => intro start; simp [idsFrom, ih]

theorem idsFrom_mem (n : Nat) :
    ∀ (start : Int) (x : Int), x ∈ idsFrom start n → start ≤ x := by
  induction n with
  | zero => intro start x hx; simp [idsFrom] at hx
  | succ n ih =>
      intro start x hx
      simp only [idsFrom, List.mem_cons] at hx
      rcases hx with rfl | hx
      · omega
      · have := ih (start + 1) x hx
        omega

theorem idsFrom_pairwise_lt (n : Nat) :
    ∀ start : Int, (idsFrom start n).Pairwise (· < ·) := by
  induction n with
  | zero => intro start; simp [idsFrom]
  | succ n ih =>
      intro start
      simp only [idsFrom, List.pairwise_cons]
      exact ⟨fun x hx => lt_of_lt_of_le (by omega) (idsFrom_mem n (start + 1) x hx),
        ih (start + 1)⟩

theorem insertAll_ids (ms : List FileMetadata) :
    ∀ d : DatabaseData, (insertAll d ms).2 = idsFrom d.NextID ms.length := by
  induction ms with
  | nil => intro d; rfl
  | cons m rest ih =>
      intro d
      show (d.NextID :: (insertAll (SaveFileMetadata d m).1 rest).2) = _
      simp only [List.length_cons, idsFrom]
      rw [ih, saveFileMetadata_nextID]

theorem insertAll_get (ms : List FileMetadata) :
    ∀ (d : DatabaseData), KeysBelowNextID d → ∀ (i : Nat) (hi : i < ms.length),
      GetFileMetadataByID (insertAll d ms).1 (d.NextID + (i : Int)) =
        some { ms.get ⟨i, hi⟩ with ID := d.NextID + (i : Int) } := by
  induction ms with
  | nil => intro d h i hi; simp at hi
  | cons m rest ih =>
      intro d h i hi
      show GetFileMetadataByID (insertAll (SaveFileMetadata d m).1 rest).1 _ = _
      cases i with
      | zero =>
          simp only [Nat.cast_zero, add_zero]
          rw [insertAll_preserves rest _ d.NextID
            (saveFileMetadata_keysBelow d m h)
            (by rw [saveFileMetadata_nextID]; omega)]
          exact getByID_insert_self d m h
      | succ j =>
          have hj : j < rest.length := by simpa using hi
          have := ih (SaveFileMetadata d m).1
            (saveFileMetadata_keysBelow d m h) j hj
          rw [saveFileMetadata_nextID] at this
          have harith : d.NextID + ((j + 1 : Nat) : Int) =
              d.NextID + 1 + (j : Int) := by push_cast; ring
          rw [harith]
          exact this


end Db

namespace Naming

theorem hexDigitChar_lowerHex {d : Nat} (h : d < 16) :
    LowerHexChar (hexDigitChar d) := by
  unfold LowerHexChar hexDigitChar digitToChar
  interval_cases d <;> decide

theorem hexEncode_length (bytes : List Nat) :
    (hexEncode bytes).length = 2 * bytes.length := by
  induction bytes with
  | nil => rfl
  | cons b rest ih =>
      simp only [hexEncode, List.length_cons, ih]
      omega

theorem hexEncode_chars (bytes : List Nat) (h : ∀ b ∈ bytes, b < 256) :
    ∀ c ∈ hexEncode bytes, LowerHexChar c := by
  induction bytes with
  | nil => intro c hc; simp [hexEncode] at hc
  | cons b rest ih =>
      intro c hc
      have hb : b < 256 := h b (by simp)
      simp only [hexEncode, List.mem_cons] at hc
      rcases hc with rfl | rfl | hc
      · exact hexDigitChar_lowerHex (by omega)
      · exact hexDigitChar_lowerHex (Nat.mod_lt _ (by omega))
      · exact ih (fun x hx => h x (by simp [hx])) c hc

theorem pad2_digits (n : Nat) (h : n < 100) :
    ∀ c ∈ pad2 n, c.isDigit = true := by
  intro c hc
  simp only [pad2, List.mem_cons, List.not_mem_nil, or_false] at hc
  rcases hc with rfl | rfl
  · exact digitToChar_isDigit (by omega)
  · exact digitToChar_isDigit (Nat.mod_lt _ (by omega))

theorem pad3_digits (n : Nat) (h : n < 1000) :
    ∀ c ∈ pad3 n, c.isDigit = true := by
  intro c hc
  simp only [pad3, List.mem_cons, List.not_mem_nil, or_false] at hc
  rcases hc with rfl | rfl | rfl
  · exact digitToChar_isDigit (by omega)
  · exact digitToChar_isDigit (Nat.mod_lt _ (by omega))
  · exact digitToChar_isDigit (Nat.mod_lt _ (by omega))

theorem pad4_digits (n : Nat) (h : n < 10000) :
    ∀ c ∈ pad4 n, c.isDigit = true := by
  intro c hc
  simp only [pad4, List.mem_cons, List.not_mem_nil, or_false] at hc
  rcases hc with rfl | rfl | rfl | rfl
  · exact digitToChar_isDigit (by omega)
  · exact digitToChar_isDigit (Nat.mod_lt _ (by omega))
  · exact digitToChar_isDigit (Nat.mod_lt _ (by omega))
  · exact digitToChar_isDigit (Nat.mod_lt _ (by omega))

theorem dateChars_length (t : GoTime) : (dateChars t).length = 8 := rfl

theorem dateChars_digits (t : GoTime) (hy : t.Year < 10000)
    (hm : t.Month < 100) (hd : t.Day < 100) :
    ∀ c ∈ dateChars t, c.isDigit = true := by
  intro c hc
  simp only [dateChars, List.mem_append] at hc
  rcases hc with (hc | hc) | hc
  · exact pad4_digits t.Year hy c hc
  · exact pad2_digits t.Month hm c hc
  · exact pad2_digits t.Day hd c hc

theorem timeChars_length (t : GoTime) :
    (hmsChars t ++ msChars t).length = 9 := rfl

theorem timeChars_digits (t : GoTime) (hh : t.Hour < 100)
    (hmin : t.Minute < 100) (hs : t.Second < 100)
    (hns : t.Nanosecond < 1000000000) :
    ∀ c ∈ hmsChars t ++ msChars t, c.isDigit = true := by
  intro c hc
  simp only [hmsChars, msChars, List.mem_append] at hc
  rcases hc with ((hc | hc) | hc) | hc
  · exact pad2_digits t.Hour hh c hc
  · exact pad2_digits t.Minute hmin c hc
  · exact pad2_digits t.Second hs c hc
  · exact pad3_digits _ (by omega) c hc

theorem extFromRev_shape (l : List Char) :
    ∀ acc, extFromRev l acc = [] ∨ ∃ rest, extFromRev l acc = '.' :: rest := by
  induction l with
  | nil => intro acc; left; rfl
  | cons c r ih =>
      intro acc
      by_cases hc : c = '/'
      · left; simp [extFromRev, hc]
      · by_cases hd : c = '.'
        · right
          refine ⟨acc, ?_⟩
          simp [extFromRev, hc, hd]
        · simpa [extFromRev, hc, hd] using ih (c :: acc)

theorem filepathExt_head (s : String) (h : filepathExt s ≠ "") :
    ∃ rest, (filepathExt s).data = '.' :: rest := by
  rcases extFromRev_shape s.data.reverse [] with he | ⟨rest, he⟩
  · exact absurd (by unfold filepathExt; rw [he]) h
  · exact ⟨rest, by unfold filepathExt; rw [he]⟩

theorem toLowerStr_empty_iff (s : String) : toLowerStr s = "" ↔ s = "" := by
  obtain ⟨l⟩ := s
  unfold toLowerStr
  constructor
  · intro h
    have : l.map Char.toLower = [] := congrArg String.data h
    rw [List.map_eq_nil_iff] at this
    rw [this]
  · intro h
    have : l = [] := congrArg String.data h
    rw [this]
    rfl


end Naming

/-! ## Claim theorems -/

/-- Claim C1: the claim says `Open` fails both when the backing directory
cannot be created and when the existing file is corrupt/unparseable, and in
particular never silently reinitializes state that will overwrite the corrupt
snapshot without backup. The first half holds, but on a corrupt snapshot
(here the non-snapshot document `Json.str "garbage"`) the code ignores the
`json.Unmarshal` error and returns a successfully opened store with freshly
initialized default state — the state whose next flush overwrites the corrupt
file with no backup. -/
theorem c1_corrupt_snapshot_silently_ignored :
    Db.Open false (some (Json.str "garbage")) = none ∧
    Db.Open true (some (Json.str "garbage")) =
      some { Files := [], NextID := 1, Config := Db.initDefaultConfigList } := by
  constructor
  · rfl
  · rfl

/-- Claim C2: in a sweep, each expired record's metadata is removed whatever
the outcome of the physical delete (`fs` is arbitrary, covering success,
already-missing and other failures), one record's failure never aborts the
rest (every expired record's path is gone from the final store), and
non-expired records are untouched: the final file list is exactly the
non-expired part of the original. -/
theorem c2_sweep_removes_metadata_unconditionally :
    ∀ (d : Db.DatabaseData) (fs : String → Cleanup.RemoveResult) (now : Int),
      Db.PathsUnique d →
      (Cleanup.runCleanup d fs now).1.Files =
        d.Files.filter (fun q => decide (¬ q.2.ExpiresAt < now)) ∧
      ∀ m ∈ Db.GetExpiredFiles d now,
        ∀ q ∈ (Cleanup.runCleanup d fs now).1.Files,
          q.2.FilePath ≠ m.FilePath := by
  intro d fs now h
  refine ⟨Cleanup.runCleanup_files d fs now h, ?_⟩
  intro m hm q hq hpath
  rw [Cleanup.runCleanup_files d fs now h, List.mem_filter] at hq
  rw [Db.mem_getExpiredFiles] at hm
  obtain ⟨⟨k, hk⟩, hexp⟩ := hm
  have heq := List.inj_on_of_nodup_map h hq.1 hk hpath
  have hq2 : q.2 = m := congrArg Prod.snd heq
  have := hq.2
  rw [hq2] at this
  simp [hexp] at this

/-- Witness for C2 at a concrete store with one expired and one live record,
on a filesystem where every physical delete fails. -/
theorem c2_sweep_removes_metadata_unconditionally_witness :
    Db.PathsUnique wStore ∧
    ((Cleanup.runCleanup wStore wFsFail 1000).1.Files =
        wStore.Files.filter (fun q => decide (¬ q.2.ExpiresAt < 1000)) ∧
      ∀ m ∈ Db.GetExpiredFiles wStore 1000,
        ∀ q ∈ (Cleanup.runCleanup wStore wFsFail 1000).1.Files,
          q.2.FilePath ≠ m.FilePath) :=
  ⟨by decide, c2_sweep_removes_metadata_unconditionally wStore wFsFail 1000
    (by decide)⟩

/-- Claim C3: a sequence of `SaveFileMetadata` calls on one store assigns the
consecutive run of ids starting at the store's current `NextID` — pairwise
distinct, strictly increasing, never reused (the final `NextID` sits past
every assigned id) — and each inserted record is retrievable by its assigned
id. The hypothesis is the store's own id invariant (keys below `NextID`),
which holds for a fresh store and is preserved by every insert. -/
theorem c3_insert_ids_unique_monotone_retrievable :
    ∀ (d : Db.DatabaseData) (ms : List Db.FileMetadata),
      Db.KeysBelowNextID d →
      (Db.insertAll d ms).2 = Db.idsFrom d.NextID ms.length ∧
      (Db.insertAll d ms).2.length = ms.length ∧
      (Db.insertAll d ms).2.Pairwise (· < ·) ∧
      (Db.insertAll d ms).2.Nodup ∧
      (Db.insertAll d ms).1.NextID = d.NextID + ms.length ∧
      ∀ (i : Nat) (hi : i < ms.length),
        Db.GetFileMetadataByID (Db.insertAll d ms).1 (d.NextID + (i : Int)) =
          some { ms.get ⟨i, hi⟩ with ID := d.NextID + (i : Int) } := by
  intro d ms h
  refine ⟨Db.insertAll_ids ms d, ?_, ?_, ?_, Db.insertAll_nextID ms d,
    Db.insertAll_get ms d h⟩
  · rw [Db.insertAll_ids ms d, Db.idsFrom_length]
  · rw [Db.insertAll_ids ms d]
    exact Db.idsFrom_pairwise_lt _ _
  · rw [Db.insertAll_ids ms d]
    exact List.Pairwise.imp (fun hlt => ne_of_lt hlt)
      (Db.idsFrom_pairwise_lt _ _)

/-- Witness for C3: three inserts into a fresh store. -/
theorem c3_insert_ids_unique_monotone_retrievable_witness :
    Db.KeysBelowNextID wEmptyStore ∧
    ((Db.insertAll wEmptyStore [wExpired, wLive, wTtlOne]).2 =
        Db.idsFrom wEmptyStore.NextID 3 ∧
      (Db.insertAll wEmptyStore [wExpired, wLive, wTtlOne]).2.length = 3 ∧
      (Db.insertAll wEmptyStore [wExpired, wLive, wTtlOne]).2.Pairwise (· < ·) ∧
      (Db.insertAll wEmptyStore [wExpired, wLive, wTtlOne]).2.Nodup ∧
      (Db.insertAll wEmptyStore [wExpired, wLive, wTtlOne]).1.NextID =
        wEmptyStore.NextID + 3 ∧
      ∀ (i : Nat) (hi : i < ([wExpired, wLive, wTtlOne] :
          List Db.FileMetadata).length),
        Db.GetFileMetadataByID
            (Db.insertAll wEmptyStore [wExpired, wLive, wTtlOne]).1
            (wEmptyStore.NextID + (i : Int)) =
          some { ([wExpired, wLive, wTtlOne] :
              List Db.FileMetadata).get ⟨i, hi⟩ with
            ID := wEmptyStore.NextID + (i : Int) }) :=
  ⟨by decide, c3_insert_ids_unique_monotone_retrievable wEmptyStore
    [wExpired, wLive, wTtlOne] (by decide)⟩

/-- Claim C4: `GetExpiredFiles d now` contains exactly the stored records
whose `ExpiresAt` is strictly before `now`; and a record uploaded at `T` with
a TTL of one hour (so `ExpiresAt = mkExpiresAt T 1`, as the upload handler
computes it) is absent at `now = T + 59min` and present at
`now = T + 61min`. -/
theorem c4_listExpired_strictly_before :
    (∀ (d : Db.DatabaseData) (now : Int) (m : Db.FileMetadata),
        m ∈ Db.GetExpiredFiles d now ↔
          (∃ k, (k, m) ∈ d.Files) ∧ m.ExpiresAt < now) ∧
    (∀ (d : Db.DatabaseData) (T k : Int) (m : Db.FileMetadata),
        (k, m) ∈ d.Files → m.UploadedAt = T → m.TTL = 1 →
        m.ExpiresAt = mkExpiresAt m.UploadedAt m.TTL →
        m ∉ Db.GetExpiredFiles d (T + 59 * nsPerMinute) ∧
        m ∈ Db.GetExpiredFiles d (T + 61 * nsPerMinute)) := by
  constructor
  · exact Db.mem_getExpiredFiles
  · intro d T k m hk hup httl hexp
    rw [hup, httl] at hexp
    constructor
    · intro hmem
      rw [Db.mem_getExpiredFiles] at hmem
      have := hmem.2
      rw [hexp] at this
      unfold mkExpiresAt nsPerHour nsPerMinute at *
      omega
    · rw [Db.mem_getExpiredFiles]
      refine ⟨⟨k, hk⟩, ?_⟩
      rw [hexp]
      unfold mkExpiresAt nsPerHour nsPerMinute
      omega

/-- Witness for C4 at a record uploaded at instant 0 with a one-hour TTL. -/
theorem c4_listExpired_strictly_before_witness :
    ((1, wTtlOne) ∈ wStoreTtl.Files ∧ wTtlOne.UploadedAt = 0 ∧
      wTtlOne.TTL = 1 ∧
      wTtlOne.ExpiresAt = mkExpiresAt wTtlOne.UploadedAt wTtlOne.TTL) ∧
    (wTtlOne ∉ Db.GetExpiredFiles wStoreTtl (0 + 59 * nsPerMinute) ∧
      wTtlOne ∈ Db.GetExpiredFiles wStoreTtl (0 + 61 * nsPerMinute)) :=
  ⟨⟨by decide, rfl, rfl, by decide⟩,
    c4_listExpired_strictly_before.2 wStoreTtl 0 1 wTtlOne (by decide) rfl rfl
      (by decide)⟩

/-- Claim C5: for a valid wall-clock instant and the 16 random bytes, the
generated relative path has the form
`YYYYMMDD/YYYYMMDD-HHMMSSmmm-<32 lowercase hex chars>.<ext>`: an 8-digit
date, a 9-digit time-with-milliseconds, 32 lowercase-hex characters, and an
extension part that is the original name's extension lowercased (beginning
with a dot) or `.bin` when the name has none. -/
theorem c5_generatePath_form :
    ∀ (t : Naming.GoTime) (bytes : List Nat) (name : String),
      (t.Year ≤ 9999 ∧ 1 ≤ t.Month ∧ t.Month ≤ 12 ∧ 1 ≤ t.Day ∧ t.Day ≤ 31 ∧
        t.Hour ≤ 23 ∧ t.Minute ≤ 59 ∧ t.Second ≤ 59 ∧
        t.Nanosecond < 1000000000 ∧ bytes.length = 16 ∧
        (∀ b ∈ bytes, b < 256) ∧ name ≠ "") →
      ∃ datePart timePart hexPart extPart : List Char,
        (Naming.GenerateFilePath t bytes name).data =
          datePart ++ '/' ::
            (datePart ++ '-' :: (timePart ++ '-' :: (hexPart ++ extPart))) ∧
        datePart.length = 8 ∧ (∀ c ∈ datePart, c.isDigit = true) ∧
        timePart.length = 9 ∧ (∀ c ∈ timePart, c.isDigit = true) ∧
        hexPart.length = 32 ∧ (∀ c ∈ hexPart, Naming.LowerHexChar c) ∧
        extPart.head? = some '.' ∧
        (Naming.filepathExt name = "" → extPart = ".bin".data) ∧
        (Naming.filepathExt name ≠ "" →
          extPart = (Naming.toLowerStr (Naming.filepathExt name)).data) := by
  intro t bytes name h
  obtain ⟨hy, hm1, hm2, hd1, hd2, hh, hmin, hs, hns, hlen, hbytes, hname⟩ := h
  refine ⟨Naming.dateChars t, Naming.hmsChars t ++ Naming.msChars t,
    Naming.hexEncode bytes,
    (if Naming.toLowerStr (Naming.filepathExt name) = "" then ".bin"
      else Naming.toLowerStr (Naming.filepathExt name)).data,
    ?_, rfl, ?_, rfl, ?_, ?_, ?_, ?_, ?_, ?_⟩
  · simp only [Naming.GenerateFilePath, Naming.GenerateFileName]
    simp [List.append_assoc]
  · exact Naming.dateChars_digits t (by omega) (by omega) (by omega)
  · exact Naming.timeChars_digits t (by omega) (by omega) (by omega) hns
  · rw [Naming.hexEncode_length, hlen]
  · exact Naming.hexEncode_chars bytes hbytes
  · by_cases hfe : Naming.filepathExt name = ""
    · rw [if_pos ((Naming.toLowerStr_empty_iff _).mpr hfe)]
      rfl
    · rw [if_neg (fun hcon =>
        hfe ((Naming.toLowerStr_empty_iff _).mp hcon))]
      obtain ⟨rest, hr⟩ := Naming.filepathExt_head name hfe
      show ((Naming.filepathExt name).data.map Char.toLower).head? = some '.'
      rw [hr]
      rfl
  · intro hfe
    rw [if_pos ((Naming.toLowerStr_empty_iff _).mpr hfe)]
  · intro hfe
    rw [if_neg (fun hcon => hfe ((Naming.toLowerStr_empty_iff _).mp hcon))]

/-- Witness for C5 at a concrete instant, sixteen concrete bytes and the
name `photo.JPG`. -/
theorem c5_generatePath_form_witness :
    (wTime.Year ≤ 9999 ∧ 1 ≤ wTime.Month ∧ wTime.Month ≤ 12 ∧
      1 ≤ wTime.Day ∧ wTime.Day ≤ 31 ∧ wTime.Hour ≤ 23 ∧
      wTime.Minute ≤ 59 ∧ wTime.Second ≤ 59 ∧
      wTime.Nanosecond < 1000000000 ∧ wBytes.length = 16 ∧
      (∀ b ∈ wBytes, b < 256) ∧ "photo.JPG" ≠ "") ∧
    (∃ datePart timePart hexPart extPart : List Char,
      (Naming.GenerateFilePath wTime wBytes "photo.JPG").data =
        datePart ++ '/' ::
          (datePart ++ '-' :: (timePart ++ '-' :: (hexPart ++ extPart))) ∧
      datePart.length = 8 ∧ (∀ c ∈ datePart, c.isDigit = true) ∧
      timePart.length = 9 ∧ (∀ c ∈ timePart, c.isDigit = true) ∧
      hexPart.length = 32 ∧ (∀ c ∈ hexPart, Naming.LowerHexChar c) ∧
      extPart.head? = some '.' ∧
      (Naming.filepathExt "photo.JPG" = "" → extPart = ".bin".data) ∧
      (Naming.filepathExt "photo.JPG" ≠ "" →
        extPart =
          (Naming.toLowerStr (Naming.filepathExt "photo.JPG")).data)) :=
  ⟨by decide, c5_generatePath_form wTime wBytes "photo.JPG" (by decide)⟩

/-- Claim C6: closing a store flushes the full state as one snapshot;
reopening from that snapshot yields a store with the identical record list
(same ids, paths, sizes and timestamps) and the same next-id counter. The
hypothesis that stored keys are nonnegative holds for every store the code
builds, since ids are assigned from `NextID`, which starts at 1. -/
theorem c6_close_open_roundtrip :
    ∀ d : Db.DatabaseData, (∀ p ∈ d.Files, 0 ≤ p.1) →
      ∃ d' : Db.DatabaseData,
        Db.Open true (some (Db.Close d)) = some d' ∧
        d'.Files = d.Files ∧ d'.NextID = d.NextID := by
  intro d h
  have hdec := Db.decodeData_encodeData d h
  by_cases hc : d.Config.isEmpty
  · exact ⟨{ d with Config := Db.initDefaultConfigList },
      by simp [Db.Open, Db.Close, Db.save, hdec, hc], rfl, rfl⟩
  · exact ⟨d, by simp [Db.Open, Db.Close, Db.save, hdec, hc], rfl, rfl⟩

/-- Witness for C6 at a two-record store. -/
theorem c6_close_open_roundtrip_witness :
    (∀ p ∈ wStore.Files, 0 ≤ p.1) ∧
    (∃ d' : Db.DatabaseData,
      Db.Open true (some (Db.Close wStore)) = some d' ∧
      d'.Files = wStore.Files ∧ d'.NextID = wStore.NextID) :=
  ⟨by decide, c6_close_open_roundtrip wStore (by decide)⟩

/-- Claim C7 counterexample: the claim — at most one sweep in flight at any
time, overlapping triggers suppressed — is false for this code: `RunOnce`
invokes `runCleanup` on its caller's goroutine with no guard, so two manual
triggers yield a reachable state with two sweeps in flight. -/
theorem c7_single_sweep_counterexample :
    ¬ (∀ s : Cleanup.SweeperState, Cleanup.SweepReachable s →
        Cleanup.inFlight s ≤ 1) := by
  intro hall
  have h1 : Cleanup.SweepReachable
      { tickSweeping := false, initialStarted := false,
        initialSweeping := false, manualSweeps := 1 } :=
    .step .init (.manualBegin _)
  have h2 : Cleanup.SweepReachable
      { tickSweeping := false, initialStarted := false,
        initialSweeping := false, manualSweeps := 2 } :=
    .step h1 (.manualBegin _)
  have := hall _ h2
  simp [Cleanup.inFlight] at this

/-- Claim C7 as amended: nothing in `CleanupManager` bounds the number of
sweeps in flight — a manual trigger arriving during a sweep starts another
concurrent sweep rather than being suppressed, and any number of concurrent
manual sweeps is reachable (only successive timer ticks of the single ticker
goroutine run sequentially). -/
theorem c7_no_inflight_guard :
    ∀ n : Nat,
      Cleanup.SweepReachable
        { tickSweeping := false, initialStarted := false,
          initialSweeping := false, manualSweeps := n } ∧
      Cleanup.inFlight
        { tickSweeping := false, initialStarted := false,
          initialSweeping := false, manualSweeps := n } = n := by
  intro n
  constructor
  · induction n with
    | zero => exact .init
    | succ k ih => exact .step ih (.manualBegin _)
  · simp [Cleanup.inFlight]

/-- Claim C8: after one sweep, the expired set (at the same instant) is
empty, and an immediately repeated sweep performs zero deletions, frees zero
bytes, leaves the store untouched and — like every sweep, which has no error
path — does not error. -/
theorem c8_sweep_idempotent :
    ∀ (d : Db.DatabaseData) (fs fs' : String → Cleanup.RemoveResult)
      (now : Int), Db.PathsUnique d →
      Db.GetExpiredFiles (Cleanup.runCleanup d fs now).1 now = [] ∧
      Cleanup.runCleanup (Cleanup.runCleanup d fs now).1 fs' now =
        ((Cleanup.runCleanup d fs now).1, 0, 0) := by
  intro d fs fs' now h
  have he := Cleanup.getExpiredFiles_after d fs now h
  have hrun : ∀ d' : Db.DatabaseData, Db.GetExpiredFiles d' now = [] →
      Cleanup.runCleanup d' fs' now = (d', 0, 0) := by
    intro d' hd'
    unfold Cleanup.runCleanup
    rw [hd']
    rfl
  exact ⟨he, hrun _ he⟩

/-- Witness for C8 at a concrete store, first sweep on a filesystem where
deletes succeed, second on one where they would fail. -/
theorem c8_sweep_idempotent_witness :
    Db.PathsUnique wStore ∧
    (Db.GetExpiredFiles
        (Cleanup.runCleanup wStore (fun _ => Cleanup.RemoveResult.ok) 1000).1
        1000 = [] ∧
      Cleanup.runCleanup
          (Cleanup.runCleanup wStore (fun _ => Cleanup.RemoveResult.ok) 1000).1
          wFsFail 1000 =
        ((Cleanup.runCleanup wStore
            (fun _ => Cleanup.RemoveResult.ok) 1000).1, 0, 0)) :=
  ⟨by decide, c8_sweep_idempotent wStore (fun _ => Cleanup.RemoveResult.ok)
    wFsFail 1000 (by decide)⟩

/-- Claim C9: `DeleteFileMetadata` always returns a nil error; when no record
has the given path the store is returned unchanged (a successful no-op); when
one is present (paths being unique across live records) exactly the matching
record is removed. -/
theorem c9_deleteByPath_present_or_noop :
    ∀ (d : Db.DatabaseData) (path : String),
      (Db.DeleteFileMetadata d path).2 = none ∧
      ((∀ q ∈ d.Files, q.2.FilePath ≠ path) →
        (Db.DeleteFileMetadata d path).1 = d) ∧
      (Db.PathsUnique d →
        (Db.DeleteFileMetadata d path).1.Files =
          d.Files.filter (fun q => decide (q.2.FilePath ≠ path))) := by
  intro d path
  refine ⟨rfl, ?_, ?_⟩
  · intro h
    show { d with Files := Db.removeFirstByPath d.Files path } = d
    rw [Db.removeFirstByPath_eq_self d.Files path h]
  · intro h
    exact Db.removeFirstByPath_nodup d.Files path h

/-- Witness for C9: deleting an absent path from a concrete store is a
successful no-op. -/
theorem c9_deleteByPath_present_or_noop_witness :
    (∀ q ∈ wStore.Files, q.2.FilePath ≠ "nope/none.txt") ∧
    (Db.DeleteFileMetadata wStore "nope/none.txt").1 = wStore :=
  ⟨by decide, (c9_deleteByPath_present_or_noop wStore "nope/none.txt").2.1
    (by decide)⟩

/-- Claim C10: `GetConfig` returns the empty string for an absent key rather
than a distinguished absent result, so a caller cannot tell a missing key
from a key stored with the empty-string value: two stores, one lacking the
key and one mapping it to `""`, give the same answer. -/
theorem c10_getConfig_absent_is_empty_string :
    (∀ (d : Db.DatabaseData) (key : String),
        Db.assocLookup d.Config key = none → Db.GetConfig d key = "") ∧
    (∃ (d1 d2 : Db.DatabaseData) (key : String),
        Db.assocLookup d1.Config key = none ∧
        Db.assocLookup d2.Config key = some "" ∧
        Db.GetConfig d1 key = Db.GetConfig d2 key) := by
  constructor
  · intro d key h
    unfold Db.GetConfig
    rw [h]
  · exact ⟨{ Files := [], NextID := 1, Config := [] },
      { Files := [], NextID := 1, Config := [("security.ip_whitelist", "")] },
      "security.ip_whitelist", rfl, rfl, rfl⟩

/-- Witness for C10: looking up a key absent from a concrete store. -/
theorem c10_getConfig_absent_is_empty_string_witness :
    Db.assocLookup wEmptyStore.Config "storage.max_ttl" = none ∧
    Db.GetConfig wEmptyStore "storage.max_ttl" = "" :=
  ⟨rfl, c10_getConfig_absent_is_empty_string.1 wEmptyStore "storage.max_ttl"
    rfl⟩
